import Mathlib

/-!
Verification of the cartesian-product functorial construction
(`src/sage/categories/cartesian_product.py`) and the abelian Lie algebra
example (`src/sage/categories/examples/finite_dimensional_lie_algebras_with_basis.py`).

Definitions are shallow embeddings of the Python source.  Machinery that the
excerpt only calls into (the `Sets()` coercion, the generic covariant
construction `__call__`, the category join, the `UniqueRepresentation` cache,
`FreeModule` internals) is modelled from the specification; each such
definition carries a doc comment starting with `Modelled from the spec:`.
-/

/-- Errors observable by a caller; the source only ever raises
`TypeError`-equivalents on the paths under study. -/
inductive PyError where
  | typeError
deriving DecidableEq, Repr

/-- Identifiers for the base rings appearing in the excerpt's doctests. -/
inductive RingId where
  | ZZ
  | QQ
deriving DecidableEq, Repr

/-- Base (non-constructed) categories appearing in the excerpt and its
doctests (`Sets`, `FiniteEnumeratedSets`, `Monoids`, `Algebras(ZZ)`, ...). -/
inductive BaseCat where
  | Sets
  | EnumeratedSets
  | FiniteEnumeratedSets
  | Magmas
  | Semigroups
  | Monoids
  | Modules (R : RingId)
  | Algebras (R : RingId)
deriving DecidableEq, Repr

/-- Modelled from the spec: categories form a directed acyclic partial order;
each base category lists its immediate super categories, as displayed by the
`C.categories()` doctest of `CartesianProductFunctor` (monoids are semigroups
are magmas are sets, finite enumerated sets are enumerated sets are sets,
algebras are modules are sets). -/
def BaseCat.superCats : BaseCat → List BaseCat
  | .Sets => []
  | .EnumeratedSets => [.Sets]
  | .FiniteEnumeratedSets => [.EnumeratedSets]
  | .Magmas => [.Sets]
  | .Semigroups => [.Magmas]
  | .Monoids => [.Semigroups]
  | .Modules _ => [.Sets]
  | .Algebras R => [.Modules R]

/-- A category is either a base category or a `CartesianProducts` category
derived from a base one (an instance of `CartesianProductsCategory`). -/
inductive Cat where
  | base (b : BaseCat)
  | cartesianProductsOf (c : Cat)
deriving DecidableEq, Repr

/-- The `CartesianProducts()` accessor.  On a `CartesianProductsCategory`
instance the source returns `self` (`CartesianProductsCategory.CartesianProducts`,
`return self`); on any other category the covariant-construction machinery
(modelled from the spec: the nested sub-definition reachable by the
construction's target name) yields the derived category. -/
def Cat.CartesianProducts : Cat → Cat
  | .cartesianProductsOf c => .cartesianProductsOf c
  | .base b => .cartesianProductsOf (.base b)

/-- Modelled from the spec: `base_category()` returns the originating
(non-constructed) category of a constructed category. -/
def Cat.base_category : Cat → Cat
  | .cartesianProductsOf c => c
  | .base b => .base b

/-- Base rings of the base categories: the algebraic categories
parameterized over a ring carry one, the set-like categories do not. -/
def BaseCat.baseRing : BaseCat → Option RingId
  | .Modules R => some R
  | .Algebras R => some R
  | _ => none

/-- The `base_ring()` accessor.  On a `CartesianProductsCategory` the source
returns `self.base_category().base_ring()` (`CartesianProductsCategory.base_ring`);
on a base category it reads the ring the category is parameterized over. -/
def Cat.base_ring : Cat → Option RingId
  | .cartesianProductsOf c => Cat.base_ring (Cat.base_category (.cartesianProductsOf c))
  | .base b => b.baseRing

/-- Modelled from the spec: the super categories of a constructed category
are the constructed categories of the base category's super categories
together with the base category itself, matching the `C.categories()`
doctest (Cartesian products of monoids are monoids, are Cartesian products
of semigroups, ...). -/
def Cat.superCats : Cat → List Cat
  | .base b => (BaseCat.superCats b).map Cat.base
  | .cartesianProductsOf c => (Cat.superCats c).map Cat.CartesianProducts ++ [c]

/-- Subcategory relation: the reflexive-transitive closure of the immediate
super-category lists, as in `A.is_subcategory(B)` iff `B` is among
`A.categories()`. -/
inductive Cat.isSub : Cat → Cat → Prop
  | refl (c : Cat) : Cat.isSub c c
  | step {a b c : Cat} : b ∈ Cat.superCats a → Cat.isSub b c → Cat.isSub a c

lemma CartesianProducts_idem (c : Cat) :
    (c.CartesianProducts).CartesianProducts = c.CartesianProducts := by
  cases c <;> rfl

lemma Cat.isSub_trans {a b c : Cat} (hab : Cat.isSub a b) (hbc : Cat.isSub b c) :
    Cat.isSub a c := by
  induction hab with
  | refl => exact hbc
  | step h _ ih => exact .step h (ih hbc)

lemma Cat.isSub_of_mem {a b : Cat} (h : b ∈ Cat.superCats a) : Cat.isSub a b :=
  .step h (.refl b)

lemma Cat.isSub_CP_of_mem {a b : Cat} (h : b ∈ Cat.superCats a) :
    Cat.isSub a.CartesianProducts b.CartesianProducts := by
  cases a with
  | base ba =>
      refine Cat.isSub_of_mem ?_
      show b.CartesianProducts ∈
        (Cat.superCats (.base ba)).map Cat.CartesianProducts ++ [Cat.base ba]
      exact List.mem_append.mpr (Or.inl (List.mem_map_of_mem _ h))
  | cartesianProductsOf a' =>
      simp only [Cat.superCats, List.mem_append, List.mem_map, List.mem_singleton] at h
      rcases h with ⟨x, hx, rfl⟩ | rfl
      · have hmem : x.CartesianProducts ∈ Cat.superCats (Cat.cartesianProductsOf a') := by
          simp only [Cat.superCats, List.mem_append, List.mem_map]
          exact Or.inl ⟨x, hx, rfl⟩
        rw [CartesianProducts_idem]
        exact Cat.isSub_of_mem hmem
      · cases b with
        | base b' => exact .refl _
        | cartesianProductsOf b' =>
            refine Cat.isSub_of_mem ?_
            simp [Cat.CartesianProducts, Cat.superCats]

/-- C3: applying the construction to an already-constructed category is a
no-op: `C.CartesianProducts().CartesianProducts() == C.CartesianProducts()`
for every category, and the `CartesianProducts()` accessor on a
`CartesianProductsCategory` instance returns that very instance. -/
theorem cartesianProducts_idempotent :
    (∀ C : Cat, (C.CartesianProducts).CartesianProducts = C.CartesianProducts) ∧
    (∀ c : Cat, (Cat.cartesianProductsOf c).CartesianProducts = Cat.cartesianProductsOf c) :=
  ⟨CartesianProducts_idem, fun _ => rfl⟩

/-- C4: the construction is covariant: if `A` is a subcategory of `B` then
`A.CartesianProducts()` is a subcategory of `B.CartesianProducts()`. -/
theorem cartesianProducts_covariant {A B : Cat} (h : Cat.isSub A B) :
    Cat.isSub A.CartesianProducts B.CartesianProducts := by
  induction h with
  | refl => exact .refl _
  | step hmem _ ih => exact Cat.isSub_trans (Cat.isSub_CP_of_mem hmem) ih

/-- Witness for C4: `Monoids` is a subcategory of `Sets`, hence Cartesian
products of monoids form a subcategory of Cartesian products of sets. -/
theorem cartesianProducts_covariant_witness :
    Cat.isSub (Cat.base .Monoids) (Cat.base .Sets) ∧
    Cat.isSub (Cat.base .Monoids).CartesianProducts (Cat.base .Sets).CartesianProducts := by
  have h3 : Cat.isSub (Cat.base .Monoids) (Cat.base .Semigroups) :=
    Cat.isSub_of_mem (by decide)
  have h2 : Cat.isSub (Cat.base .Semigroups) (Cat.base .Magmas) :=
    Cat.isSub_of_mem (by decide)
  have h1 : Cat.isSub (Cat.base .Magmas) (Cat.base .Sets) :=
    Cat.isSub_of_mem (by decide)
  have h := Cat.isSub_trans h3 (Cat.isSub_trans h2 h1)
  exact ⟨h, cartesianProducts_covariant h⟩

/-- C7: the base ring of a constructed category delegates to its base
category: `C.CartesianProducts().base_ring()` equals `C.base_ring()` for
every category that has a base ring. -/
theorem cartesianProducts_base_ring_delegates (C : Cat) (h : (Cat.base_ring C).isSome) :
    Cat.base_ring C.CartesianProducts = Cat.base_ring C := by
  cases C <;> rfl

/-- Witness for C7: `Algebras(ZZ).CartesianProducts().base_ring()` is `ZZ`,
the base ring of `Algebras(ZZ)`. -/
theorem cartesianProducts_base_ring_delegates_witness :
    (Cat.base_ring (Cat.base (.Algebras .ZZ))).isSome = true ∧
    Cat.base_ring (Cat.base (.Algebras .ZZ)).CartesianProducts
      = Cat.base_ring (Cat.base (.Algebras .ZZ)) :=
  ⟨by decide, cartesianProducts_base_ring_delegates (Cat.base (.Algebras .ZZ)) (by decide)⟩

/-- Python types relevant to the dispatch `type(arg) in native_python_containers`
in `CartesianProductFunctor.__call__`.  `type(x)` is the exact runtime type,
so strict subclasses of the four containers are distinct entries. -/
inductive PyTy where
  | tuple
  | list
  | set
  | frozenset
  | tupleSubclass
  | listSubclass
  | setSubclass
  | frozensetSubclass
  | parentTy
  | otherTy
deriving DecidableEq, Repr

/-- The module-level constant `native_python_containers = set([tuple, list, set, frozenset])`. -/
def native_python_containers : List PyTy := [.tuple, .list, .set, .frozenset]

/-- An argument passed to `cartesian_product`: its exact runtime type, the
result of its `category()` accessor when it has one, and (for containers)
its contents in iteration order, as abstract element identifiers. -/
structure Arg where
  ty : PyTy
  category : Option Cat
  elems : List Nat
deriving DecidableEq, Repr

/-- The object returned by the `CartesianProduct(args, category)` factory:
its tuple of factors and its category. -/
structure CPObject where
  factors : List Arg
  category : Cat
deriving DecidableEq, Repr

/-- Modelled from the spec: the coercion `Sets()(a, enumerated_set=True)` wraps
a plain native container as a finite enumerated set ordered by the container's
iteration order, returns a category-aware object unchanged, and raises a
`TypeError`-equivalent on an argument with neither a `category()` accessor nor
a recognized plain-container type. -/
def setsCoerce (a : Arg) : Except PyError Arg :=
  if a.ty ∈ native_python_containers then
    .ok { ty := .parentTy, category := some (.base .FiniteEnumeratedSets), elems := a.elems }
  else if a.category.isSome then
    .ok a
  else
    .error .typeError

/-- Modelled from the spec: a bounded reachability test on the super-category
lists, used only inside the category join, whose exact algorithm the spec
leaves out of scope. -/
def Cat.subB (fuel : Nat) (a b : Cat) : Bool :=
  if a = b then true
  else
    match fuel with
    | 0 => false
    | Nat.succ f => (Cat.superCats a).any fun x => Cat.subB f x b

/-- Modelled from the spec: a binary meet on categories (most specific of two
comparable categories; the spec leaves the general join algorithm out of
scope, so incomparable pairs fall back to Cartesian products of sets, the
category every constructed object belongs to). -/
def Cat.meet2 (a b : Cat) : Cat :=
  if Cat.subB 8 a b then a
  else if Cat.subB 8 b a then b
  else (Cat.base .Sets).CartesianProducts

/-- Modelled from the spec: the join of a nonempty list of categories; the
spec assumes a total computable join exists without defining its algorithm,
and notes it is undefined for an empty argument list. -/
def joinCats : List Cat → Cat
  | [] => (Cat.base .Sets).CartesianProducts
  | c :: cs => cs.foldl Cat.meet2 c

/-- Applies `Sets()(a, enumerated_set=True)` to each argument in order,
propagating the first raised error, as the list comprehension
`[S(a, enumerated_set=True) for a in args]` does. -/
def coerceAll : List Arg → Except PyError (List Arg)
  | [] => .ok []
  | a :: rest =>
    match setsCoerce a with
    | .error e => .error e
    | .ok b =>
      match coerceAll rest with
      | .error e => .error e
      | .ok bs => .ok (b :: bs)

/-- Retrieves each argument's category in order, raising a
`TypeError`-equivalent at the first argument lacking the accessor. -/
def categoriesOf : List Arg → Except PyError (List Cat)
  | [] => .ok []
  | a :: rest =>
    match a.category with
    | none => .error .typeError
    | some c =>
      match categoriesOf rest with
      | .error e => .error e
      | .ok cs => .ok (c :: cs)

/-- Modelled from the spec: the generic `CovariantFunctorialConstruction.__call__`.
For each argument it retrieves the category (raising a `TypeError`-equivalent
when the accessor is missing), takes the `CartesianProducts` sub-definition of
each, computes their join, and delegates construction to the
`CartesianProduct(args, category)` factory.  The join is undefined for an
empty argument list, so that case fails. -/
def genericCall (args : List Arg) : Except PyError CPObject :=
  match categoriesOf args with
  | .error e => .error e
  | .ok cats =>
      if cats.isEmpty then .error .typeError
      else .ok { factors := args, category := joinCats (cats.map Cat.CartesianProducts) }

/-- Coerces every argument through the enumerated-set wrapper, then runs the
given generic path on the coerced sequence. -/
def coerceThen (generic : List Arg → Except PyError CPObject)
    (args : List Arg) : Except PyError CPObject :=
  match coerceAll args with
  | .error e => .error e
  | .ok coerced => generic coerced

/-- The body of `CartesianProductFunctor.__call__`, parameterized by the
generic superclass `__call__` it delegates to: if any argument's exact type
is a native Python container, every argument is coerced through
`Sets()(a, enumerated_set=True)` and the generic call runs on the coerced
list; otherwise an empty argument list short-circuits to
`CartesianProduct((), Sets().CartesianProducts())`; otherwise the generic
call runs on the arguments unchanged. -/
def CartesianProductFunctor_call (generic : List Arg → Except PyError CPObject)
    (args : List Arg) : Except PyError CPObject :=
  if args.any (fun a => a.ty ∈ native_python_containers) then
    coerceThen generic args
  else if args.isEmpty then
    .ok { factors := [], category := (Cat.base .Sets).CartesianProducts }
  else
    generic args

/-- The `cartesian_product` entry point: the functor's `__call__` delegating
to the generic covariant-construction `__call__`. -/
def cartesian_product (args : List Arg) : Except PyError CPObject :=
  CartesianProductFunctor_call genericCall args

/-- States the specification's plain-container contract in its own words:
first coerce every argument into a (finite enumerated) category-aware set,
then invoke the generic covariant-construction path on the coerced sequence. -/
def specCoerceThenGeneric (args : List Arg) : Except PyError CPObject :=
  coerceThen genericCall args

/-- C1: for the empty input the entry point short-circuits: whatever the
generic join-based path computes (it is never invoked), the result is the
object with the empty tuple of factors, in category
`Sets().CartesianProducts()`. -/
theorem cartesian_product_empty_shortcircuit
    (generic : List Arg → Except PyError CPObject) :
    CartesianProductFunctor_call generic [] =
      .ok { factors := [], category := (Cat.base .Sets).CartesianProducts } := rfl

/-- C2: when some argument is a plain native container, `cartesian_product`
returns exactly what the spec's coerce-all-then-generic recipe returns; in
particular, whenever both runs produce objects, their categories are equal. -/
theorem cartesian_product_container_coercion_refines_spec (args : List Arg)
    (h : ∃ a ∈ args, a.ty ∈ native_python_containers) :
    cartesian_product args = specCoerceThenGeneric args ∧
    ∀ o o' : CPObject, cartesian_product args = .ok o →
      specCoerceThenGeneric args = .ok o' → o.category = o'.category := by
  have hany : args.any (fun a => a.ty ∈ native_python_containers) = true := by
    rcases h with ⟨a, ha, hty⟩
    exact List.any_eq_true.mpr ⟨a, ha, by simpa using hty⟩
  have heq : cartesian_product args = specCoerceThenGeneric args := by
    unfold cartesian_product CartesianProductFunctor_call specCoerceThenGeneric
    rw [hany]
    simp
  refine ⟨heq, fun o o' ho ho' => ?_⟩
  rw [heq, ho'] at ho
  cases ho
  rfl

/-- Witness for C2: the doctest input `[[0,1], ('a','b','c')]`, with `0..4`
standing for the five elements. -/
theorem cartesian_product_container_coercion_refines_spec_witness :
    (∃ a ∈ [Arg.mk .list none [0, 1], Arg.mk .tuple none [2, 3, 4]],
        a.ty ∈ native_python_containers) ∧
    cartesian_product [Arg.mk .list none [0, 1], Arg.mk .tuple none [2, 3, 4]] =
      specCoerceThenGeneric [Arg.mk .list none [0, 1], Arg.mk .tuple none [2, 3, 4]] :=
  ⟨by decide,
   (cartesian_product_container_coercion_refines_spec
      [Arg.mk .list none [0, 1], Arg.mk .tuple none [2, 3, 4]]
      ⟨Arg.mk .list none [0, 1], by decide, by decide⟩).1⟩

lemma coerceAll_error_of_bad {args : List Arg} {a : Arg} (ha : a ∈ args)
    (hcat : a.category = none) (hty : a.ty ∉ native_python_containers) :
    coerceAll args = .error .typeError := by
  induction args with
  | nil => cases ha
  | cons x rest ih =>
      rcases List.mem_cons.mp ha with rfl | hmem
      · have hco : setsCoerce a = .error .typeError := by
          unfold setsCoerce
          rw [if_neg (by simpa using hty)]
          simp [hcat]
        simp [coerceAll, hco]
      · cases hx : setsCoerce x with
        | error e => cases e; simp [coerceAll, hx]
        | ok b => simp [coerceAll, hx, ih hmem]

lemma categoriesOf_error_of_bad {args : List Arg} {a : Arg} (ha : a ∈ args)
    (hcat : a.category = none) :
    categoriesOf args = .error .typeError := by
  induction args with
  | nil => cases ha
  | cons x rest ih =>
      rcases List.mem_cons.mp ha with rfl | hmem
      · simp [categoriesOf, hcat]
      · cases hx : x.category with
        | none => simp [categoriesOf, hx]
        | some c => simp [categoriesOf, hx, ih hmem]

/-- C5: an argument sequence containing an element with neither a
`category()` accessor nor a recognized plain native container type makes
`cartesian_product` fail with a `TypeError`-equivalent that propagates to
the caller, with no partial result. -/
theorem cartesian_product_missing_category_typeError (args : List Arg) (a : Arg)
    (ha : a ∈ args) (hcat : a.category = none)
    (hty : a.ty ∉ native_python_containers) :
    cartesian_product args = .error .typeError := by
  unfold cartesian_product CartesianProductFunctor_call
  cases hany : args.any (fun a => a.ty ∈ native_python_containers) with
  | true =>
      simp only [if_pos]
      unfold coerceThen
      rw [coerceAll_error_of_bad ha hcat hty]
  | false =>
      have hne : args.isEmpty = false := by
        cases args with
        | nil => cases ha
        | cons _ _ => rfl
      simp only [Bool.false_eq_true, if_false, hne]
      unfold genericCall
      rw [categoriesOf_error_of_bad ha hcat]

/-- Witness for C5: a single malformed argument (no category, not a native
container) makes the call raise. -/
theorem cartesian_product_missing_category_typeError_witness :
    Arg.mk .otherTy none [] ∈ [Arg.mk .otherTy none []] ∧
    (Arg.mk .otherTy none []).category = none ∧
    (Arg.mk .otherTy none []).ty ∉ native_python_containers ∧
    cartesian_product [Arg.mk .otherTy none []] = .error .typeError :=
  ⟨by decide, by decide, by decide,
   cartesian_product_missing_category_typeError [Arg.mk .otherTy none []]
     (Arg.mk .otherTy none []) (by decide) (by decide) (by decide)⟩

lemma coerceAll_ok_forall₂ {args out : List Arg} (h : coerceAll args = .ok out) :
    List.Forall₂ (fun a b => setsCoerce a = .ok b) args out := by
  induction args generalizing out with
  | nil =>
      simp only [coerceAll] at h
      cases h
      exact .nil
  | cons x rest ih =>
      simp only [coerceAll] at h
      cases hx : setsCoerce x with
      | error e => rw [hx] at h; cases h
      | ok b =>
          rw [hx] at h
          cases hr : coerceAll rest with
          | error e => rw [hr] at h; cases h
          | ok bs =>
              rw [hr] at h
              cases h
              exact .cons hx (ih hr)

/-- C8: the coercion path triggers exactly on exact type membership in
`native_python_containers`: if some argument's exact type is `tuple`, `list`,
`set` or `frozenset`, every argument (category-aware ones included) is passed
through the enumerated-set wrapper before the generic path runs; if no
argument's exact type is one of the four (e.g. all are strict subclasses of
them), the arguments reach the generic path unchanged. -/
theorem cartesian_product_coercion_exact_type
    (generic : List Arg → Except PyError CPObject) (args : List Arg) :
    ((∃ a ∈ args, a.ty = .tuple ∨ a.ty = .list ∨ a.ty = .set ∨ a.ty = .frozenset) →
      CartesianProductFunctor_call generic args = coerceThen generic args ∧
      ∀ out : List Arg, coerceAll args = .ok out →
        List.Forall₂ (fun a b => setsCoerce a = .ok b) args out) ∧
    ((∀ a ∈ args, a.ty ∉ native_python_containers) → args ≠ [] →
      CartesianProductFunctor_call generic args = generic args) := by
  constructor
  · intro h
    have hany : args.any (fun a => a.ty ∈ native_python_containers) = true := by
      rcases h with ⟨a, ha, hty⟩
      refine List.any_eq_true.mpr ⟨a, ha, ?_⟩
      rcases hty with h | h | h | h <;> simp [native_python_containers, h]
    refine ⟨?_, fun out hout => coerceAll_ok_forall₂ hout⟩
    unfold CartesianProductFunctor_call
    rw [hany]
    rfl
  · intro h hne
    have hany : args.any (fun a => a.ty ∈ native_python_containers) = false := by
      rw [List.any_eq_false]
      intro a ha
      simpa using h a ha
    have hemp : args.isEmpty = false := by
      cases args with
      | nil => exact absurd rfl hne
      | cons _ _ => rfl
    unfold CartesianProductFunctor_call
    rw [hany, hemp]
    rfl

/-- Witness for C8: an exact `list` argument triggers the wrapper for both
arguments, while a strict subclass of `list` alone does not trigger it. -/
theorem cartesian_product_coercion_exact_type_witness :
    CartesianProductFunctor_call genericCall
        [Arg.mk .list none [0], Arg.mk .parentTy (some (.base .Monoids)) []] =
      coerceThen genericCall
        [Arg.mk .list none [0], Arg.mk .parentTy (some (.base .Monoids)) []] ∧
    CartesianProductFunctor_call genericCall
        [Arg.mk .listSubclass (some (.base .Sets)) [0]] =
      genericCall [Arg.mk .listSubclass (some (.base .Sets)) [0]] :=
  ⟨((cartesian_product_coercion_exact_type genericCall
      [Arg.mk .list none [0], Arg.mk .parentTy (some (.base .Monoids)) []]).1
      ⟨Arg.mk .list none [0], by decide, by decide⟩).1,
   (cartesian_product_coercion_exact_type genericCall
      [Arg.mk .listSubclass (some (.base .Sets)) [0]]).2
      (by decide) (by decide)⟩

/-- A free module with a distinguished basis: the ground ring, the degree of
the ambient coordinate space, and the rows of its basis matrix (rational
coordinates suffice for the modules in the excerpt's doctests). -/
structure FreeMod where
  ring : RingId
  degree : Nat
  basisRows : List (List ℚ)
deriving DecidableEq

/-- Modelled from the spec: `FreeModule(R, n)`, the free module of rank `n`
with its standard (identity) basis matrix. -/
def FreeModule (R : RingId) (n : Nat) : FreeMod :=
  { ring := R, degree := n,
    basisRows := (List.range n).map fun i =>
      (List.range n).map fun j => if j = i then (1 : ℚ) else 0 }

/-- Modelled from the spec: `M.change_ring(R)` reinterprets the module over
the ring `R`, keeping its coordinate data. -/
def FreeMod.change_ring (M : FreeMod) (R : RingId) : FreeMod :=
  { M with ring := R }

/-- Modelled from the spec: `M.subspace(gens)`, the submodule of `M` spanned
by the given vectors, over the same ring and in the same ambient coordinate
space.  Its echelonized basis is irrelevant to the properties verified here,
so the spanning vectors are kept as the basis rows. -/
def FreeMod.subspace (M : FreeMod) (gens : List (List ℚ)) : FreeMod :=
  { ring := M.ring, degree := M.degree, basisRows := gens }

/-- Zero vector of the module, `M.zero()`. -/
def FreeMod.zeroVec (M : FreeMod) : List ℚ :=
  List.replicate M.degree 0

/-- An `AbelianLieAlgebra` instance.  `__init__` stores the base ring `R`,
the module `self._M`, and `self._ambient`; the latter is `self` when the
`ambient` argument was absent, encoded here as `none` to keep the structure
well-founded. -/
inductive ALA where
  | mk (R : RingId) (M : FreeMod) (ambient : Option ALA)

/-- The base ring stored by `Parent.__init__(self, base=R, ...)`. -/
def ALA.base_ring : ALA → RingId
  | .mk R _ _ => R

/-- The stored module `self._M`. -/
def ALA.module : ALA → FreeMod
  | .mk _ M _ => M

/-- The raw stored `ambient` argument (`none` when the algebra is top-level). -/
def ALA.ambientField : ALA → Option ALA
  | .mk _ _ amb => amb

/-- The `ambient()` accessor: returns `self._ambient`, which is the algebra
itself for a top-level algebra. -/
def ALA.ambientAlg : ALA → ALA
  | .mk R M none => .mk R M none
  | .mk _ _ (some a) => a

/-- The normalization `AbelianLieAlgebra.__classcall_private__`: if `M` is
absent it becomes `FreeModule(R, n)` (failing like `FreeModule(R, None)`
when `n` is also absent), otherwise `M.change_ring(R)`; `n` is then
discarded and the normalized tuple `(R, n=None, M, ambient)` is passed on.
Modelled from the spec: the `UniqueRepresentation` cache returns the
identical instance for structurally equal normalized tuples, so an instance
is identified with its normalized data. -/
def AbelianLieAlgebra (R : RingId) (n : Option Nat) (M : Option FreeMod)
    (ambient : Option ALA) : Except PyError ALA :=
  match M with
  | none =>
    match n with
    | none => .error .typeError
    | some k => .ok (.mk R (FreeModule R k) ambient)
  | some M0 => .ok (.mk R (M0.change_ring R) ambient)

/-- An element of an abelian Lie algebra: its parent and the wrapped module
vector `self.value`. -/
structure LieElt where
  parent : ALA
  value : List ℚ

/-- The cached method `AbelianLieAlgebra.zero`:
`self.element_class(self, self._M.zero())`. -/
def ALA.zero (L : ALA) : LieElt :=
  { parent := L, value := L.module.zeroVec }

/-- The element method `AbelianLieAlgebra.Element._bracket_`:
`return self.parent().zero()`. -/
def LieElt.lieBracket (x _y : LieElt) : LieElt :=
  x.parent.zero

/-- The method `AbelianLieAlgebra.subalgebra`: forms
`N = self._M.subspace([g.value for g in gens])` and returns
`AbelianLieAlgebra(self.base_ring(), M=N, ambient=self._ambient)`. -/
def ALA.subalgebra (L : ALA) (gens : List LieElt) : Except PyError ALA :=
  AbelianLieAlgebra L.base_ring none
    (some (L.module.subspace (gens.map LieElt.value)))
    (some L.ambientAlg)

/-- C6: unique representation under normalization: for every ring `R` and
nonnegative integer `k`, the calls `AbelianLieAlgebra(R, n=k)`,
`AbelianLieAlgebra(R, M=FreeModule(R, k))` and
`AbelianLieAlgebra(R, k, FreeModule(R, k))` all normalize to the argument
tuple with `n` discarded and `M = FreeModule(R, k)`, and therefore return
the same cached instance. -/
theorem abelianLieAlgebra_unique_representation (R : RingId) (k : Nat) :
    AbelianLieAlgebra R (some k) none none = .ok (.mk R (FreeModule R k) none) ∧
    AbelianLieAlgebra R none (some (FreeModule R k)) none
      = .ok (.mk R (FreeModule R k) none) ∧
    AbelianLieAlgebra R (some k) (some (FreeModule R k)) none
      = .ok (.mk R (FreeModule R k) none) :=
  ⟨rfl, rfl, rfl⟩

/-- C9: the bracket of the abelian Lie algebra is constantly zero: for every
algebra `L` and elements `x`, `y` of `L`, `x._bracket_(y)` is `L.zero()`,
whose value is the zero vector of the ground module. -/
theorem abelianLieAlgebra_bracket_is_zero (L : ALA) (x y : LieElt)
    (hx : x.parent = L) (hy : y.parent = L) :
    LieElt.lieBracket x y = L.zero ∧
    (LieElt.lieBracket x y).value = List.replicate L.module.degree 0 := by
  subst hx
  exact ⟨rfl, rfl⟩

/-- Witness for C9: in the 2-dimensional abelian Lie algebra over the
rationals, the bracket of the elements `(1, 2)` and `(0, 1)` is the zero
element. -/
theorem abelianLieAlgebra_bracket_is_zero_witness :
    (LieElt.mk (ALA.mk .QQ (FreeModule .QQ 2) none) [1, 2]).parent
      = ALA.mk .QQ (FreeModule .QQ 2) none ∧
    (LieElt.mk (ALA.mk .QQ (FreeModule .QQ 2) none) [0, 1]).parent
      = ALA.mk .QQ (FreeModule .QQ 2) none ∧
    LieElt.lieBracket (LieElt.mk (ALA.mk .QQ (FreeModule .QQ 2) none) [1, 2])
        (LieElt.mk (ALA.mk .QQ (FreeModule .QQ 2) none) [0, 1])
      = (ALA.mk .QQ (FreeModule .QQ 2) none).zero :=
  ⟨rfl, rfl,
   (abelianLieAlgebra_bracket_is_zero (ALA.mk .QQ (FreeModule .QQ 2) none)
      (LieElt.mk (ALA.mk .QQ (FreeModule .QQ 2) none) [1, 2])
      (LieElt.mk (ALA.mk .QQ (FreeModule .QQ 2) none) [0, 1]) rfl rfl).1⟩

/-- C10: `subalgebra` preserves the ambient algebra and the base ring: when
`S = L.subalgebra(gens)`, `S.ambient()` equals `L.ambient()` (`L` itself
when `L` is top-level) and `S.base_ring()` equals `L.base_ring()`; the call
is a pure function of `L`, which it does not mutate. -/
theorem abelianLieAlgebra_subalgebra_preserves (L : ALA) (gens : List LieElt)
    (S : ALA) (h : L.subalgebra gens = .ok S) :
    S.ambientAlg = L.ambientAlg ∧ S.base_ring = L.base_ring ∧
    (L.ambientField = none → S.ambientAlg = L) := by
  have hS : S = ALA.mk L.base_ring
      ((L.module.subspace (gens.map LieElt.value)).change_ring L.base_ring)
      (some L.ambientAlg) := by
    unfold ALA.subalgebra AbelianLieAlgebra at h
    cases h
    rfl
  subst hS
  refine ⟨rfl, rfl, fun htop => ?_⟩
  cases L with
  | mk R M amb =>
      cases amb with
      | none => rfl
      | some a => cases htop

/-- Witness for C10: the subalgebra of the 2-dimensional abelian Lie algebra
over the rationals spanned by `(1, 0)` has the original algebra as ambient
algebra and the same base ring. -/
theorem abelianLieAlgebra_subalgebra_preserves_witness :
    (ALA.mk .QQ (FreeModule .QQ 2) none).subalgebra
        [LieElt.mk (ALA.mk .QQ (FreeModule .QQ 2) none) [1, 0]]
      = .ok (ALA.mk .QQ (FreeMod.mk .QQ 2 [[1, 0]])
          (some (ALA.mk .QQ (FreeModule .QQ 2) none))) ∧
    (ALA.mk .QQ (FreeMod.mk .QQ 2 [[1, 0]])
        (some (ALA.mk .QQ (FreeModule .QQ 2) none))).ambientAlg
      = ALA.mk .QQ (FreeModule .QQ 2) none ∧
    (ALA.mk .QQ (FreeMod.mk .QQ 2 [[1, 0]])
        (some (ALA.mk .QQ (FreeModule .QQ 2) none))).base_ring
      = (ALA.mk .QQ (FreeModule .QQ 2) none).base_ring := by
  have h := abelianLieAlgebra_subalgebra_preserves
    (ALA.mk .QQ (FreeModule .QQ 2) none)
    [LieElt.mk (ALA.mk .QQ (FreeModule .QQ 2) none) [1, 0]]
    (ALA.mk .QQ (FreeMod.mk .QQ 2 [[1, 0]])
      (some (ALA.mk .QQ (FreeModule .QQ 2) none))) rfl
  exact ⟨rfl, h.2.2 rfl, h.2.1⟩
